import Mathlib

/-!
Verification development for the bzip2 command-line driver (`src/bzip2.rs`):
a shallow embedding of the stream-orchestration and file-lifecycle layer.

Conventions of the embedding:

* Bytes are modelled as `Nat`; file contents as `List Nat`.
* The codec engine (`libbzip2_rs_sys`) is an external collaborator.  Its
  read side is modelled at member granularity: an input file is a list of
  independently framed members followed by trailing bytes that do not start
  a further magic-matching member (`BzFile`).  Each member carries its raw
  compressed bytes and what the engine reports for it when decoded: a clean
  decode (`MemberBody.ok`), a CRC/data error after some prefix
  (`MemberBody.crcErr`), or a truncated stream (`MemberBody.truncated`).
* Driver control flow is embedded as executable functions that return the
  sequence of externally observable events (`Ev`): stores to the process-wide
  `delete_output_on_interrupt` flag, handle open/close, file removal,
  metadata restoration, exit-code contributions, warnings, and job
  conclusion.  Filesystem primitives that the claims do not exercise
  (fclose/flush/stat succeeding) are modelled as succeeding; the
  process-fatal outcomes of the codec loops themselves (`cleanUpAndFail`)
  are modelled by the `Ev.fatalExit` event ending a trace without `Ev.conclude`.
-/

namespace Bzip2

/-- Source modes of the driver, `enum SourceMode` in the source:
stdin-to-stdout, file-to-stdout, file-to-file. -/
inductive SourceMode
  | I2O
  | F2O
  | F2F
deriving DecidableEq, Repr

/-- Operation modes of the driver, `enum OperationMode` in the source. -/
inductive OperationMode
  | Zip
  | Unzip
  | Test
deriving DecidableEq, Repr

/-- What the codec read session reports for one member of the container:
a clean decode of `decoded`, a CRC/data error after emitting `part`, or an
unexpected end of stream after emitting `part`. -/
inductive MemberBody
  | ok (decoded : List Nat)
  | crcErr (part : List Nat)
  | truncated (part : List Nat)
deriving DecidableEq, Repr

/-- One independently framed compressed member: its raw (compressed) bytes
and the decode behaviour the engine reports for it. -/
structure Member where
  raw : List Nat
  body : MemberBody
deriving DecidableEq, Repr

/-- An input file for the decompress/test state machines: zero or more valid
members followed by trailing bytes that do not themselves begin a valid
magic-matching member (`garbage`; empty when there is no trailing junk). -/
structure BzFile where
  members : List Member
  garbage : List Nat
deriving DecidableEq, Repr

/-- Raw byte contents of the whole file: the concatenated raw members
followed by the trailing garbage. -/
def rawBytes (f : BzFile) : List Nat :=
  (f.members.map Member.raw).flatten ++ f.garbage

/-- Identifiers for the user-facing messages the claims are about. -/
inductive Warning
  | noMatch
  | policyMsg
  | cantGuess
  | trailingGarbage
  | notBzip2
  | crcMsg
  | eofMsg
  | badMagicMsg
  | deletingOutput
  | incompleteOutput
  | unprocessed
deriving DecidableEq, Repr

/-- Compression report printed by `compressStream` at verbosity >= 1:
nothing (verbosity 0), " no data compressed." (zero input bytes), or the
ratio line carrying the absolute in/out byte counts. -/
inductive Report
  | silent
  | noData
  | stats (bytesIn bytesOut : Nat)
deriving DecidableEq, Repr

/-- Externally observable events of one driver job, in program order. -/
inductive Ev
  | setFlag (b : Bool)
  | openOutput
  | closeOutput
  | rawCopy
  | restorePerms
  | restoreMeta
  | removeInput
  | removeOutput
  | setExit (n : Nat)
  | warn (w : Warning)
  | report (r : Report)
  | conclude
  | fatalExit (n : Nat)
deriving DecidableEq, Repr

/-- Emit a warning event when the condition (typically the `noisy` flag)
holds, matching the `if config.noisy { eprintln!(..) }` pattern. -/
def warnIf (b : Bool) (w : Warning) : List Ev :=
  if b then [Ev.warn w] else []

/-- Outcome of `uncompressStream`/`testStream`: a normal boolean return, or
a process-terminating diagnostic (`cleanUpAndFail ec`). -/
inductive UOutcome
  | ret (b : Bool)
  | fatal (code : Nat)
deriving DecidableEq, Repr

/-- Result of one stream-driver invocation: its events, the bytes written
to the output stream, and how the call ended. -/
structure StreamRes where
  evs : List Ev
  written : List Nat
  outcome : UOutcome
deriving DecidableEq, Repr

/-- Value a stream driver hands back to its caller (`false` on the
bad-magic-on-first-member path). -/
def retVal (oc : UOutcome) : Bool :=
  match oc with
  | UOutcome.ret b => b
  | UOutcome.fatal _ => false

/-- Core loop of `uncompressStream` (`State::Standard` / `State::TryCat` /
`State::CloseOk` / `State::ErrHandler` in the source), one recursive step per
member-open iteration.  Arguments: the remaining members, the stream number
of the session being opened this iteration (`streamNo` is incremented after
each successful `BZ2_bzReadOpen`), and the bytes written so far.

* remaining member decodes cleanly: its decoded bytes are written; when no
  unused bytes remain and the input is at EOF (`nUnused == 0 && myfeof`)
  the machine moves to `CloseOk` (restoring permissions to a file output
  when metadata was captured), else it loops back to `Standard`;
* remaining member reports a CRC error: `ErrHandler` calls `crcError()`,
  i.e. `cleanUpAndFail(2)`;
* remaining member is truncated: `ErrHandler` calls `compressedStreamEOF()`,
  i.e. `cleanUpAndFail(2)`;
* the read position reaches the trailing garbage: `BZ2_bzRead` reports
  `BZ_DATA_ERROR_MAGIC` and the machine moves to `TryCat`: with
  `force_overwrite` it rewinds the input to its start, copies the whole raw
  file verbatim to the output and moves to `CloseOk`; without it,
  `ErrHandler` returns `false` when this was the first stream and `true`
  (trailing garbage ignored, noisy-gated message) otherwise;
* an empty file (no members, no garbage) makes the first read report
  `BZ_UNEXPECTED_EOF`, handled as `compressedStreamEOF()`. -/
def uncompressGo (force hasMeta noisy : Bool) (allRaw garbage : List Nat) :
    List Member → Nat → List Nat → StreamRes
  | [], streamNo, out =>
    if garbage.isEmpty then
      { evs := [Ev.fatalExit 2], written := out, outcome := UOutcome.fatal 2 }
    else if force then
      { evs := [Ev.rawCopy] ++ (if hasMeta then [Ev.restorePerms] else []),
        written := out ++ allRaw,
        outcome := UOutcome.ret true }
    else if streamNo = 1 then
      { evs := [], written := out, outcome := UOutcome.ret false }
    else
      { evs := warnIf noisy Warning.trailingGarbage, written := out,
        outcome := UOutcome.ret true }
  | m :: rest, streamNo, out =>
    match m.body with
    | MemberBody.ok d =>
      if rest.isEmpty && garbage.isEmpty then
        { evs := if hasMeta then [Ev.restorePerms] else [],
          written := out ++ d,
          outcome := UOutcome.ret true }
      else
        uncompressGo force hasMeta noisy allRaw garbage rest (streamNo + 1) (out ++ d)
    | MemberBody.crcErr p =>
      { evs := [Ev.fatalExit 2], written := out ++ p, outcome := UOutcome.fatal 2 }
    | MemberBody.truncated p =>
      { evs := [Ev.fatalExit 2], written := out ++ p, outcome := UOutcome.fatal 2 }

/-- `uncompressStream` of the source, at the member granularity of the
codec model: starts in `State::Standard` with stream number 1 and an empty
output. -/
def uncompressStream (force hasMeta noisy : Bool) (f : BzFile) : StreamRes :=
  uncompressGo force hasMeta noisy (rawBytes f) f.garbage f.members 1 []

/-- Core loop of `testStream`.  Identical member walk to `uncompressGo`,
but: decoded output is discarded, there is no `TryCat` state at all, and
the CRC / unexpected-EOF / bad-magic classifications print a message and
return `false` instead of terminating the process. -/
def testGo (noisy : Bool) (garbage : List Nat) : List Member → Nat → StreamRes
  | [], streamNo =>
    if garbage.isEmpty then
      { evs := [Ev.warn Warning.eofMsg], written := [], outcome := UOutcome.ret false }
    else if streamNo = 1 then
      { evs := [Ev.warn Warning.badMagicMsg], written := [], outcome := UOutcome.ret false }
    else
      { evs := warnIf noisy Warning.trailingGarbage, written := [],
        outcome := UOutcome.ret true }
  | m :: rest, streamNo =>
    match m.body with
    | MemberBody.ok _ =>
      if rest.isEmpty && garbage.isEmpty then
        { evs := [], written := [], outcome := UOutcome.ret true }
      else
        testGo noisy garbage rest (streamNo + 1)
    | MemberBody.crcErr _ =>
      { evs := [Ev.warn Warning.crcMsg], written := [], outcome := UOutcome.ret false }
    | MemberBody.truncated _ =>
      { evs := [Ev.warn Warning.eofMsg], written := [], outcome := UOutcome.ret false }

/-- `testStream` of the source: the member walk starting at stream 1. -/
def testStream (noisy : Bool) (f : BzFile) : StreamRes :=
  testGo noisy f.garbage f.members 1

/-- All members decode cleanly (so a read session walking the file reaches
the trailing garbage, if any). -/
def allOkMembers (ms : List Member) : Bool :=
  ms.all fun m =>
    match m.body with
    | MemberBody.ok _ => true
    | _ => false

/-! ### Output-name derivation for decompression (`Config::with_uncompress_input`) -/

/-- `Z_SUFFIX` of the source: the recognised compressed-name endings, in
the order the loop checks them.  File names are modelled as `List Char`. -/
def Z_SUFFIX : List (List Char) :=
  [['.', 'b', 'z', '2'], ['.', 'b', 'z'], ['.', 't', 'b', 'z', '2'], ['.', 't', 'b', 'z']]

/-- `UNZ_SUFFIX` of the source: the replacement paired with each entry of
`Z_SUFFIX`. -/
def UNZ_SUFFIX : List (List Char) :=
  [[], [], ['.', 't', 'a', 'r'], ['.', 't', 'a', 'r']]

/-- The `.out` fallback suffix appended when no entry of `Z_SUFFIX` matches. -/
def OUT_SUFFIX : List Char := ['.', 'o', 'u', 't']

/-- The `for (old, new) in Z_SUFFIX.iter().zip(UNZ_SUFFIX)` loop body:
the first pair whose `old` is a suffix of the name yields
`name.truncate(name.len() - old.len()); name += new`. -/
def scanSuffixes : List (List Char × List Char) → List Char → Option (List Char)
  | [], _ => none
  | (old, nw) :: rest, name =>
    if old.isSuffixOf name then some (name.take (name.length - old.length) ++ nw)
    else scanSuffixes rest name

/-- Output name derived from the input name for a file-to-file decompress
job (`Config::with_uncompress_input`, `SourceMode::F2F` arm): replace the
first matching suffix pair, else append `.out`. -/
def uncompressOutputName (name : List Char) : List Char :=
  match scanSuffixes (Z_SUFFIX.zip UNZ_SUFFIX) name with
  | some n => n
  | none => name ++ OUT_SUFFIX

/-- Naming rule as worded by the spec, for comparison with the embedded
`uncompressOutputName`: scan the ordered list of suffix pairs
`.bz2` to empty, `.bz` to empty, `.tbz2` to `.tar`, `.tbz` to `.tar`,
replace the first matching suffix with its paired replacement; when none
matches, append `.out`. -/
def suffixRuleSpec (name : List Char) : List Char :=
  if (['.', 'b', 'z', '2'] : List Char).isSuffixOf name then
    name.take (name.length - 4)
  else if (['.', 'b', 'z'] : List Char).isSuffixOf name then
    name.take (name.length - 3)
  else if (['.', 't', 'b', 'z', '2'] : List Char).isSuffixOf name then
    name.take (name.length - 5) ++ ['.', 't', 'a', 'r']
  else if (['.', 't', 'b', 'z'] : List Char).isSuffixOf name then
    name.take (name.length - 4) ++ ['.', 't', 'a', 'r']
  else
    name ++ OUT_SUFFIX

/-- `config.output.extension() == Some("out")` for a name without a trailing
directory separator: the name ends in `.out` and the file stem in front of
that dot is nonempty (`Path::extension` returns `None` for a bare `.out`). -/
def extensionIsOut (p : List Char) : Bool :=
  OUT_SUFFIX.isSuffixOf p && decide (4 < p.length)

/-! ### Bounded global name buffers (`copy_filename`) -/

/-- `FILE_NAME_LEN` of the source. -/
def FILE_NAME_LEN : Nat := 1034

/-- Buffer effect of `copy_filename`'s write sequence, on a buffer modelled
as a list of bytes of length `FILE_NAME_LEN`:
`std::ptr::copy(from.as_ptr(), to, from.len())` overwrites the first
`from.len()` bytes, then `*to.wrapping_add(from.len() + 1) = 0` stores a NUL
at index `from.len() + 1`, then `*to.wrapping_add(FILE_NAME_LEN - 10) = 0`
stores a NUL at index 1024. -/
def copyFilenameBuf (dst from_ : List Nat) : List Nat :=
  ((from_ ++ dst.drop from_.length).set (from_.length + 1) 0).set (FILE_NAME_LEN - 10) 0

/-- `copy_filename` of the source: names longer than `FILE_NAME_LEN - 10`
(= 1024) usable bytes print the "suspiciously long" diagnostic, raise the
worst exit code to at least 1 (`setExit(1)`) and exit the process with that
code (`exit(exitValue)`); shorter names are written into the buffer.
`exitValue` is the process-wide worst exit code at the time of the call. -/
def copy_filename (exitValue : Nat) (dst from_ : List Nat) : Except Nat (List Nat) :=
  if FILE_NAME_LEN - 10 < from_.length then Except.error (max exitValue 1)
  else Except.ok (copyFilenameBuf dst from_)

/-- C-string read of a buffer, as `strlen` / `CStr::from_ptr` perform on the
global name buffers: the bytes up to the first NUL. -/
def cstr (l : List Nat) : List Nat :=
  l.takeWhile fun b => b != 0

/-- The `inName`/`outName` buffer contents at startup: `main_0` runs
`copy_filename(inName.as_mut_ptr(), "(none)")` on the zero-initialised
array. -/
def noneBuf : List Nat :=
  copyFilenameBuf (List.replicate FILE_NAME_LEN 0) [40, 110, 111, 110, 101, 41]

/-! ### Compress stream driver (`compressStream`) -/

/-- Read loop of `compressStream`: the input is consumed in chunks of at
most 5000 bytes (`ibuf`), each fed to `BZ2_bzWrite`; the codec session's
input-byte counter, returned by `BZ2_bzWriteClose64`, accumulates the
length of every chunk.  `fuel` bounds the recursion by the input length. -/
def feedChunks : Nat → List Nat → Nat → Nat
  | 0, _, acc => acc
  | fuel + 1, l, acc =>
    match l with
    | [] => acc
    | _ :: _ => feedChunks fuel (l.drop 5000) (acc + (l.take 5000).length)

/-- Total input bytes the write session counts for an input. -/
def feed (l : List Nat) : Nat :=
  feedChunks l.length l 0

/-- Result of `compressStream`: the report printed on success, or a
process-fatal diagnostic (`configError` / `outOfMemory` / `ioError`). -/
inductive CompressResult
  | success (r : Report)
  | fatal (code : Nat)
deriving DecidableEq, Repr

/-- `compressStream` of the source.  On codec failure the status code maps
to a process-terminating diagnostic (modelled by its exit code); on success,
with `verbosity >= 1`, zero input bytes print " no data compressed." and a
nonzero count prints the ratio line with the absolute in/out counts. -/
def compressStream (verbosity : Nat) (input : List Nat) (outBytes : Nat)
    (codecFail : Option Nat) : CompressResult :=
  match codecFail with
  | some c => CompressResult.fatal c
  | none =>
    CompressResult.success
      (if 1 ≤ verbosity then
        (if feed input = 0 then Report.noData else Report.stats (feed input) outBytes)
      else Report.silent)

/-! ### Job-level driver traces

Each driver function (`compress`, `uncompress`, `testf`) is embedded as a
function from an environment — the outcomes of the filesystem predicates it
consults, the relevant flags, and the input file contents — to the list of
observable events it performs, in program order, plus its returned value. -/

/-- Environment of one `uncompress` job.  Boolean fields are the results of
the filesystem checks the function performs, in source order; `file` is the
content of the input as seen by the codec model.  `inputName` is the file
argument, from which the output name and the `cannot_guess` condition are
derived exactly as `Config::with_uncompress_input` and `uncompress` do. -/
structure UncompressEnv where
  inputName : List Char := []
  dubious : Bool := false
  inputExists : Bool := true
  isDir : Bool := false
  notStandard : Bool := false
  outputExists : Bool := false
  hardLinks : Nat := 0
  stdinTerminal : Bool := false
  openInputOk : Bool := true
  openOutputOk : Bool := true
  force : Bool := false
  keep : Bool := false
  noisy : Bool := true
  file : BzFile := { members := [], garbage := [] }
deriving Repr

/-- `let cannot_guess = config.output.extension() == Some(OsStr::new("out"))`:
only a file-to-file job has a derived output name; for stdio modes the
output is `(stdout)`, whose extension is never `out`. -/
def cannotGuessFlag (srcMode : SourceMode) (e : UncompressEnv) : Bool :=
  decide (srcMode = SourceMode.F2F) && extensionIsOut (uncompressOutputName e.inputName)

/-- Removal of a pre-existing output file when overwrite is forced
(`if config.force_overwrite { let _ = std::fs::remove_file(&config.output); }`). -/
def rmOldEvs (srcMode : SourceMode) (e : UncompressEnv) : List Ev :=
  if srcMode = SourceMode.F2F ∧ e.outputExists ∧ e.force then [Ev.removeOutput] else []

/-- Events of `uncompress` after `uncompressStream` returns: clear the
just-in-case handle; on success restore the saved timestamps to the output,
clear the deletable flag and (unless keeping inputs) delete the input; on
failure clear the flag and (file-to-file) delete the partial output, then
count the job as exit code 2 and report "not a bzip2 file".  A fatal stream
outcome never reaches this code. -/
def uncompressTail (srcMode : SourceMode) (keep hasMeta : Bool) (oc : UOutcome) : List Ev :=
  match oc with
  | UOutcome.fatal _ => []
  | UOutcome.ret true =>
    [Ev.closeOutput]
      ++ (if hasMeta then
            [Ev.restoreMeta, Ev.setFlag false] ++ (if keep then [] else [Ev.removeInput])
          else [])
      ++ [Ev.setFlag false, Ev.conclude]
  | UOutcome.ret false =>
    [Ev.closeOutput, Ev.setFlag false]
      ++ (if srcMode = SourceMode.F2F then [Ev.removeOutput] else [])
      ++ [Ev.setFlag false, Ev.setExit 2, Ev.warn Warning.notBzip2, Ev.conclude]

/-- Main section of `uncompress`, entered once every precondition passed and
the handles are open: set the deletable flag, run `uncompressStream`, then
the epilogue of `uncompressTail`. -/
def uncompressMain (srcMode : SourceMode) (e : UncompressEnv) (wg rmOld openEvs : List Ev) :
    List Ev × Bool :=
  ([Ev.setFlag false] ++ wg ++ rmOld ++ openEvs ++ [Ev.setFlag true]
     ++ (uncompressStream e.force (decide (srcMode = SourceMode.F2F)) e.noisy e.file).evs
     ++ uncompressTail srcMode e.keep (decide (srcMode = SourceMode.F2F))
          (uncompressStream e.force (decide (srcMode = SourceMode.F2F)) e.noisy e.file).outcome,
   retVal (uncompressStream e.force (decide (srcMode = SourceMode.F2F)) e.noisy e.file).outcome)

/-- Event trace and returned value of one `uncompress` job, following the
source order: clear the deletable flag; run the precondition checks, each
short-circuiting with `setExit(1)` and returning `true`; emit the noisy
"can't guess original name" warning (not an error) after the normal-file
check; then open the handles (file-to-file: input `fopen` first, output
create-new second) and enter the main section. -/
def uncompressEvents (srcMode : SourceMode) (e : UncompressEnv) : List Ev × Bool :=
  if srcMode ≠ SourceMode.I2O ∧ e.dubious then
    ([Ev.setFlag false] ++ warnIf e.noisy Warning.noMatch ++ [Ev.setExit 1, Ev.conclude], true)
  else if srcMode ≠ SourceMode.I2O ∧ e.inputExists = false then
    ([Ev.setFlag false, Ev.setExit 1, Ev.conclude], true)
  else if (srcMode = SourceMode.F2F ∨ srcMode = SourceMode.F2O) ∧ e.isDir then
    ([Ev.setFlag false, Ev.setExit 1, Ev.conclude], true)
  else if srcMode = SourceMode.F2F ∧ e.force = false ∧ e.notStandard then
    ([Ev.setFlag false] ++ warnIf e.noisy Warning.policyMsg ++ [Ev.setExit 1, Ev.conclude], true)
  else if srcMode = SourceMode.F2F ∧ e.outputExists ∧ e.force = false then
    ([Ev.setFlag false] ++ warnIf (cannotGuessFlag srcMode e && e.noisy) Warning.cantGuess
       ++ [Ev.setExit 1, Ev.conclude], true)
  else if srcMode = SourceMode.F2F ∧ e.force = false ∧ 0 < e.hardLinks then
    ([Ev.setFlag false] ++ warnIf (cannotGuessFlag srcMode e && e.noisy) Warning.cantGuess
       ++ rmOldEvs srcMode e ++ [Ev.setExit 1, Ev.conclude], true)
  else
    match srcMode with
    | SourceMode.I2O =>
      if e.stdinTerminal then ([Ev.setFlag false, Ev.setExit 1, Ev.conclude], true)
      else uncompressMain SourceMode.I2O e [] [] []
    | SourceMode.F2O =>
      if e.openInputOk = false then ([Ev.setFlag false, Ev.setExit 1, Ev.conclude], true)
      else uncompressMain SourceMode.F2O e
             (warnIf (cannotGuessFlag SourceMode.F2O e && e.noisy) Warning.cantGuess) [] []
    | SourceMode.F2F =>
      if e.openOutputOk = false then
        ([Ev.setFlag false] ++ warnIf (cannotGuessFlag SourceMode.F2F e && e.noisy) Warning.cantGuess
           ++ rmOldEvs SourceMode.F2F e ++ [Ev.setExit 1, Ev.conclude], true)
      else if e.openInputOk = false then
        ([Ev.setFlag false] ++ warnIf (cannotGuessFlag SourceMode.F2F e && e.noisy) Warning.cantGuess
           ++ rmOldEvs SourceMode.F2F e ++ [Ev.openOutput, Ev.setExit 1, Ev.conclude], true)
      else
        uncompressMain SourceMode.F2F e
          (warnIf (cannotGuessFlag SourceMode.F2F e && e.noisy) Warning.cantGuess)
          (rmOldEvs SourceMode.F2F e) [Ev.openOutput]

/-- Environment of one `compress` job, mirroring `UncompressEnv`:
`hasZSuffix` is whether the input's extension already matches an entry of
`Z_SUFFIX`; `input` is the input byte content, `compressedSize` the output
count the codec session reports, `codecFail` a process-fatal codec status
(exit code) if any. -/
structure CompressEnv where
  dubious : Bool := false
  inputExists : Bool := true
  hasZSuffix : Bool := false
  isDir : Bool := false
  notStandard : Bool := false
  outputExists : Bool := false
  hardLinks : Nat := 0
  stdoutTerminal : Bool := false
  openInputOk : Bool := true
  openOutputOk : Bool := true
  force : Bool := false
  keep : Bool := false
  noisy : Bool := true
  verbosity : Nat := 0
  input : List Nat := []
  compressedSize : Nat := 0
  codecFail : Option Nat := none
deriving Repr

/-- Removal of a pre-existing output file in `compress` when overwrite is
forced. -/
def cRmOldEvs (srcMode : SourceMode) (e : CompressEnv) : List Ev :=
  if srcMode = SourceMode.F2F ∧ e.outputExists ∧ e.force then [Ev.removeOutput] else []

/-- Events from `compressStream` onwards in `compress`: a fatal codec status
terminates the process inside the stream call; otherwise `compressStream`
restores permissions and closes the handle (metadata present) and prints its
report, and `compress` then restores the saved timestamps, clears the
deletable flag, deletes the input unless keeping, clears the flag again and
returns. -/
def compressTail (keep hasMeta : Bool) (res : CompressResult) : List Ev :=
  match res with
  | CompressResult.fatal c => [Ev.fatalExit c]
  | CompressResult.success r =>
    (if hasMeta then [Ev.restorePerms] else []) ++ [Ev.closeOutput, Ev.report r]
      ++ (if hasMeta then
            [Ev.restoreMeta, Ev.setFlag false] ++ (if keep then [] else [Ev.removeInput])
          else [])
      ++ [Ev.setFlag false, Ev.conclude]

/-- Main section of `compress`: record the handle, set the deletable flag,
run the stream, then the epilogue. -/
def compressMain (srcMode : SourceMode) (e : CompressEnv) (rmOld openEvs : List Ev) : List Ev :=
  [Ev.setFlag false] ++ rmOld ++ openEvs ++ [Ev.setFlag true]
    ++ compressTail e.keep (decide (srcMode = SourceMode.F2F))
         (compressStream e.verbosity e.input e.compressedSize e.codecFail)

/-- Event trace of one `compress` job, following the source order of the
precondition checks (dubious name, missing input, already-compressed
suffix, directory, non-normal file, existing output, hard links, terminal
output, handle opens — file-to-file opens the output first). -/
def compressEvents (srcMode : SourceMode) (e : CompressEnv) : List Ev :=
  if srcMode ≠ SourceMode.I2O ∧ e.dubious then
    [Ev.setFlag false] ++ warnIf e.noisy Warning.noMatch ++ [Ev.setExit 1, Ev.conclude]
  else if srcMode ≠ SourceMode.I2O ∧ e.inputExists = false then
    [Ev.setFlag false, Ev.setExit 1, Ev.conclude]
  else if e.hasZSuffix then
    [Ev.setFlag false] ++ warnIf e.noisy Warning.policyMsg ++ [Ev.setExit 1, Ev.conclude]
  else if (srcMode = SourceMode.F2F ∨ srcMode = SourceMode.F2O) ∧ e.isDir then
    [Ev.setFlag false, Ev.setExit 1, Ev.conclude]
  else if srcMode = SourceMode.F2F ∧ e.force = false ∧ e.notStandard then
    [Ev.setFlag false] ++ warnIf e.noisy Warning.policyMsg ++ [Ev.setExit 1, Ev.conclude]
  else if srcMode = SourceMode.F2F ∧ e.outputExists ∧ e.force = false then
    [Ev.setFlag false, Ev.setExit 1, Ev.conclude]
  else if srcMode = SourceMode.F2F ∧ e.force = false ∧ 0 < e.hardLinks then
    [Ev.setFlag false] ++ cRmOldEvs srcMode e ++ [Ev.setExit 1, Ev.conclude]
  else
    match srcMode with
    | SourceMode.I2O =>
      if e.stdoutTerminal then [Ev.setFlag false, Ev.setExit 1, Ev.conclude]
      else compressMain SourceMode.I2O e [] []
    | SourceMode.F2O =>
      if e.stdoutTerminal then [Ev.setFlag false, Ev.setExit 1, Ev.conclude]
      else if e.openInputOk = false then [Ev.setFlag false, Ev.setExit 1, Ev.conclude]
      else compressMain SourceMode.F2O e [] []
    | SourceMode.F2F =>
      if e.openOutputOk = false then
        [Ev.setFlag false] ++ cRmOldEvs SourceMode.F2F e ++ [Ev.setExit 1, Ev.conclude]
      else if e.openInputOk = false then
        [Ev.setFlag false] ++ cRmOldEvs SourceMode.F2F e
          ++ [Ev.openOutput, Ev.setExit 1, Ev.conclude]
      else
        compressMain SourceMode.F2F e (cRmOldEvs SourceMode.F2F e) [Ev.openOutput]

/-- Environment of one `testf` job. -/
structure TestEnv where
  dubious : Bool := false
  inputExists : Bool := true
  isDir : Bool := false
  stdinTerminal : Bool := false
  openInputOk : Bool := true
  noisy : Bool := true
  file : BzFile := { members := [], garbage := [] }
deriving Repr

/-- Event trace and returned value of one `testf` job: clear the deletable
flag, run the precondition checks (dubious name, missing input, directory,
terminal stdin / input open failure), clear the just-in-case handle and run
`testStream`. -/
def testfEvents (srcMode : SourceMode) (e : TestEnv) : List Ev × Bool :=
  if srcMode ≠ SourceMode.I2O ∧ e.dubious then
    ([Ev.setFlag false] ++ warnIf e.noisy Warning.noMatch ++ [Ev.setExit 1, Ev.conclude], true)
  else if srcMode ≠ SourceMode.I2O ∧ e.inputExists = false then
    ([Ev.setFlag false, Ev.setExit 1, Ev.conclude], true)
  else if srcMode ≠ SourceMode.I2O ∧ e.isDir then
    ([Ev.setFlag false, Ev.setExit 1, Ev.conclude], true)
  else if (srcMode = SourceMode.I2O ∧ e.stdinTerminal)
      ∨ (srcMode ≠ SourceMode.I2O ∧ e.openInputOk = false) then
    ([Ev.setFlag false, Ev.setExit 1, Ev.conclude], true)
  else
    ([Ev.setFlag false, Ev.closeOutput] ++ (testStream e.noisy e.file).evs ++ [Ev.conclude],
     retVal (testStream e.noisy e.file).outcome)

/-- The `OperationMode::Test` arm of `main_0`: every file argument is run
through `testf` in turn, folding the per-job results; only a process-fatal
stream outcome (I/O, memory or configuration error) would stop the walk,
in which case the remaining arguments yield no result (`none`). -/
def testAll (noisy : Bool) : List BzFile → Option (List Bool)
  | [] => some []
  | f :: rest =>
    match (testStream noisy f).outcome with
    | UOutcome.fatal _ => none
    | UOutcome.ret b => Option.map (fun rs => b :: rs) (testAll noisy rest)

/-- Process-wide state consulted by `cleanUpAndFail`. -/
structure CleanupEnv where
  srcMode : SourceMode
  flag : Bool
  inputExists : Bool := true
  handleOpen : Bool := false
  noisy : Bool := true
  numFileNames : Int := 0
  numFilesProcessed : Int := 0
  exitValue : Nat := 0
deriving Repr

/-- `cleanUpAndFail` of the source: when the run is file-to-file, the mode
is not Test and the deletable flag is set, re-stat the input — if it still
exists, force-close the tracked output handle and delete the output file,
otherwise warn that the output may be incomplete; then warn about
unprocessed arguments, fold `ec` into the worst exit code and exit with it. -/
def cleanUpAndFail (opMode : OperationMode) (g : CleanupEnv) (ec : Nat) : List Ev × Nat :=
  ((if g.srcMode = SourceMode.F2F ∧ opMode ≠ OperationMode.Test ∧ g.flag then
      (if g.inputExists then
        warnIf g.noisy Warning.deletingOutput
          ++ (if g.handleOpen then [Ev.closeOutput] else []) ++ [Ev.removeOutput]
      else [Ev.warn Warning.incompleteOutput])
    else [])
    ++ (if g.noisy ∧ 0 < g.numFileNames ∧ g.numFilesProcessed < g.numFileNames then
          [Ev.warn Warning.unprocessed]
        else [])
    ++ [Ev.fatalExit (max g.exitValue ec)],
   max g.exitValue ec)

/-! ### Trace predicates for the deletable-flag discipline -/

/-- State of the `delete_output_on_interrupt` flag after one event. -/
def flagUpdate (b : Bool) (e : Ev) : Bool :=
  match e with
  | Ev.setFlag v => v
  | _ => b

/-- State of the deletable flag just before the event at index `i` of a
trace (the flag starts `false`). -/
def flagAt (tr : List Ev) (i : Nat) : Bool :=
  (tr.take i).foldl flagUpdate false

/-- Whether the next event of a trace clears the deletable flag. -/
def nextIsUnset : List Ev → Bool
  | Ev.setFlag false :: _ => true
  | _ => false

/-- Checker for the deletable-flag discipline of one job trace, walking the
trace with the current flag value, whether the output handle has been
opened, and whether the job has concluded.  It enforces:

* the flag is raised only after the output handle was opened and only
  before the job concludes (so outside that window it is never `true`);
* metadata restoration happens with the flag still raised, and the very
  next event clears it;
* the job concludes with the flag `false`, and it can never be raised again
  afterwards. -/
def flagCheck : Bool → Bool → Bool → List Ev → Bool
  | _, _, _, [] => true
  | _, o, c, Ev.setFlag b :: r => (!b || (o && !c)) && flagCheck b o c r
  | f, _, c, Ev.openOutput :: r => flagCheck f true c r
  | f, o, _, Ev.conclude :: r => !f && flagCheck f o true r
  | f, o, c, Ev.restoreMeta :: r => f && nextIsUnset r && flagCheck f o c r
  | f, o, c, _ :: r => flagCheck f o c r

/-- Events a neutral trace segment may contain: anything that does not
touch the flag, the output handle, metadata restoration, or conclusion. -/
def neutralEv : Ev → Bool
  | Ev.setFlag _ => false
  | Ev.openOutput => false
  | Ev.conclude => false
  | Ev.restoreMeta => false
  | _ => true

/-- All preconditions of an `uncompress` job pass (none of the policy
checks short-circuits it and both handles open). -/
def uncompressPre (e : UncompressEnv) : Bool :=
  !e.dubious && e.inputExists && !e.isDir && !e.notStandard && !e.outputExists
    && decide (e.hardLinks = 0) && !e.stdinTerminal && e.openInputOk && e.openOutputOk

/-- All preconditions of a `compress` job pass. -/
def compressPre (e : CompressEnv) : Bool :=
  !e.dubious && e.inputExists && !e.hasZSuffix && !e.isDir && !e.notStandard
    && !e.outputExists && decide (e.hardLinks = 0) && !e.stdoutTerminal
    && e.openInputOk && e.openOutputOk

/-- A file-to-file decompress job for a given input name, with every
precondition passing and a single cleanly decoding member as input. -/
def c6Env (name : List Char) : UncompressEnv :=
  { inputName := name,
    file := { members := [{ raw := [66], body := MemberBody.ok [104] }], garbage := [] } }

/-- A container of two cleanly decoding members followed by trailing
garbage, as in the concatenated-members-plus-junk scenario. -/
def twoMemberFile (raw1 d1 raw2 d2 g : List Nat) : BzFile :=
  { members := [{ raw := raw1, body := MemberBody.ok d1 },
                { raw := raw2, body := MemberBody.ok d2 }],
    garbage := g }

/-- A file-to-file decompress job with overwrite-force set whose input is a
two-member container with trailing garbage. -/
def c2JobEnv (raw1 d1 raw2 d2 g : List Nat) : UncompressEnv :=
  { inputName := ['x', '.', 'b', 'z', '2'], force := true,
    file := twoMemberFile raw1 d1 raw2 d2 g }

/-! ### Helper lemmas -/

theorem flagCheck_append (l r : List Ev) (h : ∀ ev ∈ l, neutralEv ev = true) (f o c : Bool) :
    flagCheck f o c (l ++ r) = flagCheck f o c r := by
  induction l generalizing f o c with
  | nil => rfl
  | cons e t ih =>
    have he : neutralEv e = true := h e (List.mem_cons_self e t)
    have ht : ∀ ev ∈ t, neutralEv ev = true := fun ev hm => h ev (List.mem_cons_of_mem e hm)
    cases e <;> simp [neutralEv] at he <;> simp [flagCheck, ih ht]

theorem warnIf_neutral (b : Bool) (w : Warning) : ∀ ev ∈ warnIf b w, neutralEv ev = true := by
  intro ev hm
  cases b <;> simp [warnIf] at hm
  subst hm
  rfl

theorem uncompressGo_evs_neutral (force hasMeta noisy : Bool) (allRaw garbage : List Nat)
    (ms : List Member) :
    ∀ n out, ∀ ev ∈ (uncompressGo force hasMeta noisy allRaw garbage ms n out).evs,
      neutralEv ev = true := by
  induction ms with
  | nil =>
    intro n out ev hm
    unfold uncompressGo at hm
    by_cases hg : garbage.isEmpty
    · simp [hg] at hm
      subst hm
      rfl
    · by_cases hf : force = true
      · cases hasMeta <;> simp [hg, hf] at hm
        · subst hm
          rfl
        · rcases hm with hm | hm <;> subst hm <;> rfl
      · by_cases hn : n = 1
        · simp [hg, hf, hn] at hm
        · simp only [if_neg hg, if_neg hf, if_neg hn] at hm
          exact warnIf_neutral _ _ ev (by simpa using hm)
  | cons m rest ih =>
    intro n out ev hm
    unfold uncompressGo at hm
    rcases hb : m.body with d | p | p <;> rw [hb] at hm
    · by_cases hend : (rest.isEmpty && garbage.isEmpty) = true
      · cases hasMeta <;> simp [hend] at hm
        subst hm
        rfl
      · simp only [if_neg hend] at hm
        exact ih _ _ ev (by simpa using hm)
    · simp at hm
      subst hm
      rfl
    · simp at hm
      subst hm
      rfl

theorem flagCheck_run (wg rmOld sevs tail : List Ev)
    (h1 : ∀ ev ∈ wg, neutralEv ev = true)
    (h2 : ∀ ev ∈ rmOld, neutralEv ev = true)
    (h3 : ∀ ev ∈ sevs, neutralEv ev = true)
    (h4 : flagCheck true true false tail = true) :
    flagCheck false false false
      ([Ev.setFlag false] ++ wg ++ rmOld ++ [Ev.openOutput] ++ [Ev.setFlag true] ++ sevs ++ tail)
      = true := by
  have e1 : [Ev.setFlag false] ++ wg ++ rmOld ++ [Ev.openOutput] ++ [Ev.setFlag true] ++ sevs ++ tail
      = Ev.setFlag false :: (wg ++ (rmOld
          ++ (Ev.openOutput :: Ev.setFlag true :: (sevs ++ tail)))) := by
    simp [List.append_assoc]
  rw [e1]
  simp only [flagCheck, Bool.not_false, Bool.true_or, Bool.true_and]
  rw [flagCheck_append _ _ h1, flagCheck_append _ _ h2]
  simp only [flagCheck, Bool.not_true, Bool.false_or, Bool.and_self, Bool.true_and]
  rw [flagCheck_append _ _ h3]
  exact h4

theorem flagCheck_uncompressTail (srcMode : SourceMode) (keep hasMeta : Bool) (oc : UOutcome) :
    flagCheck true true false (uncompressTail srcMode keep hasMeta oc) = true := by
  rcases oc with b | c
  · cases b <;> cases keep <;> cases hasMeta <;> cases srcMode <;> rfl
  · rfl

theorem flagCheck_compressTail (keep hasMeta : Bool) (res : CompressResult) :
    flagCheck true true false (compressTail keep hasMeta res) = true := by
  rcases res with r | c
  · cases keep <;> cases hasMeta <;> simp [compressTail, flagCheck, nextIsUnset]
  · rfl

theorem flagCheck_early (l : List Ev) (h : ∀ ev ∈ l, neutralEv ev = true) :
    flagCheck false false false ([Ev.setFlag false] ++ l ++ [Ev.setExit 1, Ev.conclude]) = true := by
  have e1 : [Ev.setFlag false] ++ l ++ [Ev.setExit 1, Ev.conclude]
      = Ev.setFlag false :: (l ++ [Ev.setExit 1, Ev.conclude]) := by
    simp [List.append_assoc]
  rw [e1]
  simp only [flagCheck, Bool.not_false, Bool.true_or, Bool.true_and]
  rw [flagCheck_append _ _ h]
  rfl

theorem flagCheck_early2 (l l2 : List Ev) (h : ∀ ev ∈ l, neutralEv ev = true)
    (h2 : ∀ ev ∈ l2, neutralEv ev = true) :
    flagCheck false false false ([Ev.setFlag false] ++ l ++ l2 ++ [Ev.setExit 1, Ev.conclude])
      = true := by
  have e1 : [Ev.setFlag false] ++ l ++ l2 ++ [Ev.setExit 1, Ev.conclude]
      = Ev.setFlag false :: (l ++ (l2 ++ [Ev.setExit 1, Ev.conclude])) := by
    simp [List.append_assoc]
  rw [e1]
  simp only [flagCheck, Bool.not_false, Bool.true_or, Bool.true_and]
  rw [flagCheck_append _ _ h, flagCheck_append _ _ h2]
  rfl

theorem flagCheck_early_open (l : List Ev) (h : ∀ ev ∈ l, neutralEv ev = true) :
    flagCheck false false false
      ([Ev.setFlag false] ++ l ++ [Ev.openOutput, Ev.setExit 1, Ev.conclude]) = true := by
  have e1 : [Ev.setFlag false] ++ l ++ [Ev.openOutput, Ev.setExit 1, Ev.conclude]
      = Ev.setFlag false :: (l ++ [Ev.openOutput, Ev.setExit 1, Ev.conclude]) := by
    simp [List.append_assoc]
  rw [e1]
  simp only [flagCheck, Bool.not_false, Bool.true_or, Bool.true_and]
  rw [flagCheck_append _ _ h]
  rfl

theorem flagCheck_early2_open (l l2 : List Ev) (h : ∀ ev ∈ l, neutralEv ev = true)
    (h2 : ∀ ev ∈ l2, neutralEv ev = true) :
    flagCheck false false false
      ([Ev.setFlag false] ++ l ++ l2 ++ [Ev.openOutput, Ev.setExit 1, Ev.conclude]) = true := by
  have e1 : [Ev.setFlag false] ++ l ++ l2 ++ [Ev.openOutput, Ev.setExit 1, Ev.conclude]
      = Ev.setFlag false :: (l ++ (l2 ++ [Ev.openOutput, Ev.setExit 1, Ev.conclude])) := by
    simp [List.append_assoc]
  rw [e1]
  simp only [flagCheck, Bool.not_false, Bool.true_or, Bool.true_and]
  rw [flagCheck_append _ _ h, flagCheck_append _ _ h2]
  rfl

theorem flagCheck_main2 (rmOld tail : List Ev) (h2 : ∀ ev ∈ rmOld, neutralEv ev = true)
    (h4 : flagCheck true true false tail = true) :
    flagCheck false false false
      ([Ev.setFlag false] ++ rmOld ++ [Ev.openOutput] ++ [Ev.setFlag true] ++ tail) = true := by
  have e1 : [Ev.setFlag false] ++ rmOld ++ [Ev.openOutput] ++ [Ev.setFlag true] ++ tail
      = Ev.setFlag false :: (rmOld ++ (Ev.openOutput :: Ev.setFlag true :: tail)) := by
    simp [List.append_assoc]
  rw [e1]
  simp only [flagCheck, Bool.not_false, Bool.true_or, Bool.true_and]
  rw [flagCheck_append _ _ h2]
  simp only [flagCheck, Bool.not_true, Bool.false_or, Bool.and_self, Bool.true_and]
  exact h4

theorem rmOldEvs_neutral (srcMode : SourceMode) (e : UncompressEnv) :
    ∀ ev ∈ rmOldEvs srcMode e, neutralEv ev = true := by
  intro ev hm
  unfold rmOldEvs at hm
  split_ifs at hm <;> simp at hm
  subst hm
  rfl

theorem cRmOldEvs_neutral (srcMode : SourceMode) (e : CompressEnv) :
    ∀ ev ∈ cRmOldEvs srcMode e, neutralEv ev = true := by
  intro ev hm
  unfold cRmOldEvs at hm
  split_ifs at hm <;> simp at hm
  subst hm
  rfl

theorem compress_flag_discipline (e : CompressEnv) :
    flagCheck false false false (compressEvents SourceMode.F2F e) = true := by
  unfold compressEvents
  dsimp only
  split_ifs with h1 h2 h3 h4 h5 h6 h7 h8 h9
  · exact flagCheck_early _ (warnIf_neutral _ _)
  · exact flagCheck_early [] (by simp)
  · exact flagCheck_early _ (warnIf_neutral _ _)
  · exact flagCheck_early [] (by simp)
  · exact flagCheck_early _ (warnIf_neutral _ _)
  · exact flagCheck_early [] (by simp)
  · exact flagCheck_early _ (cRmOldEvs_neutral _ _)
  · exact flagCheck_early _ (cRmOldEvs_neutral _ _)
  · exact flagCheck_early_open _ (cRmOldEvs_neutral _ _)
  · exact flagCheck_main2 _ _ (cRmOldEvs_neutral _ _) (flagCheck_compressTail _ _ _)

theorem uncompress_flag_discipline (e : UncompressEnv) :
    flagCheck false false false (uncompressEvents SourceMode.F2F e).1 = true := by
  unfold uncompressEvents
  dsimp only
  split_ifs with h1 h2 h3 h4 h5 h6 h7 h8
  · exact flagCheck_early _ (warnIf_neutral _ _)
  · exact flagCheck_early [] (by simp)
  · exact flagCheck_early [] (by simp)
  · exact flagCheck_early _ (warnIf_neutral _ _)
  · exact flagCheck_early _ (warnIf_neutral _ _)
  · exact flagCheck_early2 _ _ (warnIf_neutral _ _) (rmOldEvs_neutral _ _)
  · exact flagCheck_early2 _ _ (warnIf_neutral _ _) (rmOldEvs_neutral _ _)
  · exact flagCheck_early2_open _ _ (warnIf_neutral _ _) (rmOldEvs_neutral _ _)
  · exact flagCheck_run _ _ _ _ (warnIf_neutral _ _) (rmOldEvs_neutral _ _)
      (uncompressGo_evs_neutral _ _ _ _ _ _ _ _)
      (flagCheck_uncompressTail _ _ _ _)

/-! ### C1 -/

/-- C1 (amended).  For every file-to-file compress or decompress job, the
"delete output on interrupt" flag obeys the discipline checked by
`flagCheck`: it is raised only after the output handle has been opened and
only before the job concludes; it is still raised when metadata restoration
begins and the event immediately after `restoreMeta` clears it; and every
job that concludes does so with the flag false, never to be raised again.
(The original claim's "false before metadata restoration begins" is refuted
by `uncompress_flag_true_at_restore`: the code clears the flag only after
`apply_saved_time_info_to_output_file`.) -/
theorem delete_flag_window :
    (∀ e : CompressEnv, flagCheck false false false (compressEvents SourceMode.F2F e) = true) ∧
    (∀ e : UncompressEnv,
      flagCheck false false false (uncompressEvents SourceMode.F2F e).1 = true) :=
  ⟨compress_flag_discipline, uncompress_flag_discipline⟩

/-- C1 (counterexample to the claim as stated).  In a plain successful
file-to-file compress job, the metadata-restoration event occurs at index 6
of the trace and the deletable flag is still `true` at that point — the
code stores `false` into `delete_output_on_interrupt` only after
`apply_saved_time_info_to_output_file`, so the flag is not "false before
metadata restoration begins". -/
theorem compress_flag_true_at_restore :
    (compressEvents SourceMode.F2F {}).get? 6 = some Ev.restoreMeta ∧
    flagAt (compressEvents SourceMode.F2F {}) 6 = true := by
  decide

/-- Same refutation on the decompress side, used as supporting evidence:
after a successful file-to-file decompress job the `restoreMeta` event at
index 5 happens with the flag still `true`. -/
theorem uncompress_flag_true_at_restore :
    ((uncompressEvents SourceMode.F2F
        { inputName := ['x', '.', 'b', 'z', '2'],
          file := { members := [{ raw := [66], body := MemberBody.ok [104] }],
                    garbage := [] } }).1.get? 5 = some Ev.restoreMeta) ∧
    flagAt (uncompressEvents SourceMode.F2F
        { inputName := ['x', '.', 'b', 'z', '2'],
          file := { members := [{ raw := [66], body := MemberBody.ok [104] }],
                    garbage := [] } }).1 5 = true := by
  decide

/-! ### Stream lemmas for C2, C3, C4 -/

theorem isEmpty_false_of_ne_nil {α : Type} {l : List α} (h : l ≠ []) : l.isEmpty = false := by
  cases l with
  | nil => exact absurd rfl h
  | cons a t => rfl

/-- Walking cleanly decoding members with nonempty trailing garbage and no
force, starting at stream number at least 2: the session that reads into
the garbage reports bad magic after at least one member was consumed, so
the outcome is `ret true` with only the noisy trailing-garbage message. -/
theorem uncompressGo_allOk_garbage (hasMeta noisy : Bool) (allRaw garbage : List Nat)
    (hg : garbage ≠ []) :
    ∀ ms : List Member, allOkMembers ms = true →
      ∀ n out, 2 ≤ n →
        (uncompressGo false hasMeta noisy allRaw garbage ms n out).outcome = UOutcome.ret true ∧
        (uncompressGo false hasMeta noisy allRaw garbage ms n out).evs
          = warnIf noisy Warning.trailingGarbage := by
  intro ms
  induction ms with
  | nil =>
    intro _ n out hn
    unfold uncompressGo
    rw [if_neg (by simp [isEmpty_false_of_ne_nil hg]), if_neg (by simp),
      if_neg (by omega)]
    exact ⟨rfl, rfl⟩
  | cons m rest ih =>
    intro hok n out hn
    have hm : (match m.body with | MemberBody.ok _ => true | _ => false) = true ∧
        allOkMembers rest = true := by
      simpa [allOkMembers, List.all_cons] using hok
    rcases hb : m.body with d | p | p
    · have hstep : uncompressGo false hasMeta noisy allRaw garbage (m :: rest) n out
          = uncompressGo false hasMeta noisy allRaw garbage rest (n + 1) (out ++ d) := by
        rw [uncompressGo.eq_def]
        dsimp only
        rw [hb]
        simp [isEmpty_false_of_ne_nil hg]
      rw [hstep]
      exact ih hm.2 (n + 1) (out ++ d) (by omega)
    · rw [hb] at hm
      simp at hm
    · rw [hb] at hm
      simp at hm

/-- `uncompressStream` on a file whose members all decode cleanly, with at
least one member and nonempty trailing garbage, without force: the garbage
is classified as bad magic after the first member, so the stream reports
success (`ret true`), emitting only the noisy trailing-garbage message. -/
theorem uncompressStream_badmagic_later (hasMeta noisy : Bool) (f : BzFile)
    (hok : allOkMembers f.members = true) (hne : f.members ≠ []) (hg : f.garbage ≠ []) :
    (uncompressStream false hasMeta noisy f).outcome = UOutcome.ret true ∧
    (uncompressStream false hasMeta noisy f).evs = warnIf noisy Warning.trailingGarbage := by
  rcases hms : f.members with _ | ⟨m, rest⟩
  · exact absurd hms hne
  · rw [hms] at hok
    have hm : (match m.body with | MemberBody.ok _ => true | _ => false) = true ∧
        allOkMembers rest = true := by
      simpa [allOkMembers, List.all_cons] using hok
    unfold uncompressStream
    rw [hms]
    rcases hb : m.body with d | p | p
    · have hstep : uncompressGo false hasMeta noisy (rawBytes f) f.garbage (m :: rest) 1 []
          = uncompressGo false hasMeta noisy (rawBytes f) f.garbage rest 2 ([] ++ d) := by
        rw [uncompressGo.eq_def]
        dsimp only
        rw [hb]
        simp [isEmpty_false_of_ne_nil hg]
      rw [hstep]
      exact uncompressGo_allOk_garbage hasMeta noisy _ _ hg rest hm.2 2 ([] ++ d) (by omega)
    · rw [hb] at hm
      simp at hm
    · rw [hb] at hm
      simp at hm

/-- `uncompressStream` on a file with no valid member at all (the very
first session reports bad magic), without force: `ErrHandler` sees
`streamNo == 1` and the stream returns `false` with no events. -/
theorem uncompressStream_badmagic_first (hasMeta noisy : Bool) (g : List Nat) (hg : g ≠ []) :
    uncompressStream false hasMeta noisy { members := [], garbage := g }
      = { evs := [], written := [], outcome := UOutcome.ret false } := by
  unfold uncompressStream uncompressGo
  rw [if_neg (by simp [isEmpty_false_of_ne_nil hg]), if_neg (by simp), if_pos rfl]

/-- The raw-copy fallback of `State::TryCat` runs exactly when the walk
reaches a bad-magic read (all members decoded cleanly and nonempty trailing
garbage remains) and the overwrite-force flag is set — independently of how
many members were consumed first. -/
theorem uncompressGo_rawCopy_mem (force hasMeta noisy : Bool) (allRaw garbage : List Nat) :
    ∀ (ms : List Member) (n : Nat) (out : List Nat),
      (Ev.rawCopy ∈ (uncompressGo force hasMeta noisy allRaw garbage ms n out).evs ↔
        force = true ∧ allOkMembers ms = true ∧ garbage ≠ []) := by
  intro ms
  induction ms with
  | nil =>
    intro n out
    rw [uncompressGo.eq_def]
    dsimp only
    by_cases hg : garbage.isEmpty = true
    · have hgnil : garbage = [] := by
        cases garbage with
        | nil => rfl
        | cons a t => simp [List.isEmpty] at hg
      simp [hg, hgnil]
    · have hgf : garbage.isEmpty = false := by
        cases hq : garbage.isEmpty
        · rfl
        · exact absurd hq hg
      have hgne : garbage ≠ [] := by
        intro hcon
        rw [hcon] at hgf
        simp at hgf
      cases hf : force
      · by_cases hn : n = 1 <;> cases noisy <;>
          simp [hgf, hn, allOkMembers, hgne, warnIf]
      · simp [hgf, allOkMembers, hgne]
  | cons m rest ih =>
    intro n out
    rw [uncompressGo.eq_def]
    dsimp only
    rcases hb : m.body with d | p | p <;> dsimp only
    · by_cases hend : (rest.isEmpty && garbage.isEmpty) = true
      · have hgnil : garbage = [] := by
          rcases Bool.and_eq_true_iff.mp hend with ⟨_, hg2⟩
          cases garbage with
          | nil => rfl
          | cons a t => simp [List.isEmpty] at hg2
        rw [if_pos hend]
        cases hasMeta <;> simp [hgnil]
      · rw [if_neg hend]
        rw [ih (n + 1) (out ++ d)]
        simp [allOkMembers, List.all_cons, hb]
    · simp [allOkMembers, List.all_cons, hb]
    · simp [allOkMembers, List.all_cons, hb]

/-! ### C2 -/

/-- C2 (counterexample to the claim as stated).  Decompressing a container
of two valid members followed by five garbage bytes with overwrite-force
enabled does succeed, but the bytes written are *not* just the two decoded
contents: the `TryCat` fallback rewinds the input to its start and copies
the entire raw file after them. -/
theorem trycat_output_not_just_decoded :
    (uncompressStream true true true (twoMemberFile [1, 2] [10] [3] [20] [3, 1, 4, 1, 5])).outcome
        = UOutcome.ret true ∧
    (uncompressStream true true true (twoMemberFile [1, 2] [10] [3] [20] [3, 1, 4, 1, 5])).written
        = [10, 20, 1, 2, 3, 3, 1, 4, 1, 5] ∧
    (uncompressStream true true true (twoMemberFile [1, 2] [10] [3] [20] [3, 1, 4, 1, 5])).written
        ≠ [10] ++ [20] := by
  decide

/-- C2 (amended).  For two valid concatenated members followed by nonempty
trailing garbage that does not itself begin a valid member, decompressing
with overwrite-force enabled succeeds (the stream returns `true` and the
file-to-file job reports success), and the bytes written are the two
members' decoded contents followed by a verbatim copy of the entire raw
input file — the `TryCat` raw-copy fallback rewinds to the start of the
file before copying, so the decoded bytes are not the whole output. -/
theorem trycat_appends_whole_file (hasMeta noisy : Bool) (raw1 d1 raw2 d2 g : List Nat)
    (hg : g ≠ []) :
    (uncompressStream true hasMeta noisy (twoMemberFile raw1 d1 raw2 d2 g)).outcome
        = UOutcome.ret true ∧
    (uncompressStream true hasMeta noisy (twoMemberFile raw1 d1 raw2 d2 g)).written
        = d1 ++ d2 ++ (raw1 ++ raw2 ++ g) ∧
    (uncompressEvents SourceMode.F2F (c2JobEnv raw1 d1 raw2 d2 g)).2 = true := by
  have hge : g.isEmpty = false := isEmpty_false_of_ne_nil hg
  have hstream : ∀ hm no : Bool,
      (uncompressStream true hm no (twoMemberFile raw1 d1 raw2 d2 g)).outcome
          = UOutcome.ret true ∧
      (uncompressStream true hm no (twoMemberFile raw1 d1 raw2 d2 g)).written
          = d1 ++ d2 ++ (raw1 ++ raw2 ++ g) := by
    intro hm no
    unfold uncompressStream twoMemberFile
    simp [uncompressGo, rawBytes, hge]
  refine ⟨(hstream hasMeta noisy).1, (hstream hasMeta noisy).2, ?_⟩
  unfold uncompressEvents c2JobEnv
  dsimp only
  simp [uncompressMain, cannotGuessFlag, uncompressOutputName, scanSuffixes, Z_SUFFIX,
    UNZ_SUFFIX, extensionIsOut, (hstream true true).1, retVal]

/-- Witness for `trycat_appends_whole_file` at a concrete two-member
container with five bytes of trailing garbage. -/
theorem trycat_appends_whole_file_witness :
    (uncompressStream true true true (twoMemberFile [1] [10] [2] [20] [7, 7, 7, 7, 7])).written
        = [10] ++ [20] ++ ([1] ++ [2] ++ [7, 7, 7, 7, 7]) ∧
    (uncompressEvents SourceMode.F2F (c2JobEnv [1] [10] [2] [20] [7, 7, 7, 7, 7])).2 = true :=
  ⟨(trycat_appends_whole_file true true [1] [10] [2] [20] [7, 7, 7, 7, 7] (by decide)).2.1,
   (trycat_appends_whole_file true true [1] [10] [2] [20] [7, 7, 7, 7, 7] (by decide)).2.2⟩

/-! ### C3 -/

/-- C3 (counterexample to the claim as stated).  The raw-copy fallback also
runs when the bad-magic status occurs on the very first member (no member
was consumed at all), as long as overwrite-force is set: on a file that is
pure garbage, `TryCat` still copies it verbatim. -/
theorem rawcopy_without_consumed_member :
    ({ members := [], garbage := [9] } : BzFile).members = [] ∧
    Ev.rawCopy ∈ (uncompressStream true true true { members := [], garbage := [9] }).evs ∧
    (uncompressStream true true true { members := [], garbage := [9] }).outcome
      = UOutcome.ret true := by
  decide

/-- C3 (amended).  The `TryCat` raw copy is performed exactly when a
bad-magic status occurred — whether on the very first member or after
members were consumed (all members decoded cleanly and nonempty trailing
garbage remains) — and the overwrite-force flag is set; in particular,
whenever force is not set no raw copy ever happens and bad magic is left to
the `ErrHandler` state. -/
theorem rawcopy_iff_badmagic_and_force (force hasMeta noisy : Bool) (f : BzFile) :
    Ev.rawCopy ∈ (uncompressStream force hasMeta noisy f).evs ↔
      force = true ∧ allOkMembers f.members = true ∧ f.garbage ≠ [] :=
  uncompressGo_rawCopy_mem force hasMeta noisy (rawBytes f) f.garbage f.members 1 []

/-! ### C4 -/

theorem setExit_not_mem_warnIf (n : Nat) (b : Bool) (w : Warning) :
    Ev.setExit n ∉ warnIf b w := by
  cases b <;> simp [warnIf]

/-- A file-to-file `uncompress` job whose preconditions all pass proceeds
to the main section, with the can't-guess warning, the forced removal of an
existing output (none here, since the output does not pre-exist) and the
output-handle open event in front. -/
theorem uncompressEvents_pre_pass (e : UncompressEnv) (hpre : uncompressPre e = true) :
    uncompressEvents SourceMode.F2F e
      = uncompressMain SourceMode.F2F e
          (warnIf (cannotGuessFlag SourceMode.F2F e && e.noisy) Warning.cantGuess)
          (rmOldEvs SourceMode.F2F e) [Ev.openOutput] := by
  obtain ⟨nm, db, ie, dir, ns, oe, hl, st, oi, oo, fo, kp, no, fl⟩ := e
  simp only [uncompressPre, Bool.and_eq_true, Bool.not_eq_true', decide_eq_true_eq] at hpre
  obtain ⟨⟨⟨⟨⟨⟨⟨⟨hdb, hie⟩, hdir⟩, hns⟩, hoe⟩, hhl⟩, hst⟩, hoi⟩, hoo⟩ := hpre
  subst hdb hie hdir hns hoe hhl hst hoi hoo
  simp [uncompressEvents]

/-- C4.  When the read session of a precondition-passing file-to-file
decompress job reports bad magic without force (all members decode cleanly
and nonempty trailing garbage follows): if bad magic hits the very first
member (no valid member at all), `uncompressStream` returns `false` and the
job is reported as not a valid bzip2 file with exit-code contribution 2; if
at least one member decoded first, the bad magic is treated as trailing
garbage and the job concludes as an overall success with no exit-code
contribution. -/
theorem bad_magic_classification (e : UncompressEnv)
    (hpre : uncompressPre e = true) (hforce : e.force = false)
    (hok : allOkMembers e.file.members = true) (hg : e.file.garbage ≠ []) :
    (e.file.members = [] →
      (uncompressStream e.force true e.noisy e.file).outcome = UOutcome.ret false ∧
      (uncompressEvents SourceMode.F2F e).2 = false ∧
      Ev.setExit 2 ∈ (uncompressEvents SourceMode.F2F e).1 ∧
      Ev.warn Warning.notBzip2 ∈ (uncompressEvents SourceMode.F2F e).1) ∧
    (e.file.members ≠ [] →
      (uncompressStream e.force true e.noisy e.file).outcome = UOutcome.ret true ∧
      (uncompressEvents SourceMode.F2F e).2 = true ∧
      (∀ n, Ev.setExit n ∉ (uncompressEvents SourceMode.F2F e).1)) := by
  have htr := uncompressEvents_pre_pass e hpre
  have hrm : rmOldEvs SourceMode.F2F e = [] := by
    have hoe : e.outputExists = false := by
      simp only [uncompressPre, Bool.and_eq_true, Bool.not_eq_true', decide_eq_true_eq] at hpre
      exact hpre.1.1.1.1.2
    simp [rmOldEvs, hoe]
  have hdec : decide (SourceMode.F2F = SourceMode.F2F) = true := rfl
  constructor
  · intro hnil
    rcases hfe : e.file with ⟨ms, g⟩
    rw [hfe] at hnil hg
    dsimp only at hnil hg
    subst hnil
    have hs := uncompressStream_badmagic_first true e.noisy g hg
    rw [htr]
    unfold uncompressMain
    rw [hforce, hrm, hdec, hfe, hs]
    refine ⟨rfl, rfl, ?_, ?_⟩ <;> simp [uncompressTail]
  · intro hne
    have hs := uncompressStream_badmagic_later true e.noisy e.file hok hne hg
    rw [htr]
    unfold uncompressMain
    rw [hforce, hrm, hdec, hs.1, hs.2]
    refine ⟨rfl, rfl, ?_⟩
    intro n
    cases hkp : e.keep <;>
      simp [uncompressTail, setExit_not_mem_warnIf n, hkp]

/-- Witness for `bad_magic_classification`: a pure-garbage input without
force fails with "not a bzip2 file" and exit-code contribution 2. -/
theorem bad_magic_classification_witness :
    (uncompressEvents SourceMode.F2F { inputName := ['x'], file := ⟨[], [9]⟩ }).2 = false ∧
    Ev.setExit 2 ∈ (uncompressEvents SourceMode.F2F { inputName := ['x'], file := ⟨[], [9]⟩ }).1 :=
  ⟨((bad_magic_classification { inputName := ['x'], file := ⟨[], [9]⟩ }
      (by decide) rfl rfl (by decide)).1 rfl).2.1,
   ((bad_magic_classification { inputName := ['x'], file := ⟨[], [9]⟩ }
      (by decide) rfl rfl (by decide)).1 rfl).2.2.1⟩

/-! ### C5 -/

theorem testGo_evs_warn (noisy : Bool) (garbage : List Nat) (ms : List Member) :
    ∀ n, ∀ ev ∈ (testGo noisy garbage ms n).evs, ∃ w, ev = Ev.warn w := by
  induction ms with
  | nil =>
    intro n ev hm
    rw [testGo.eq_def] at hm
    dsimp only at hm
    by_cases hg : garbage.isEmpty = true
    · simp [hg] at hm
      exact ⟨Warning.eofMsg, hm⟩
    · by_cases hn : n = 1
      · simp [hg, hn] at hm
        exact ⟨Warning.badMagicMsg, hm⟩
      · simp [hg, hn] at hm
        rcases hmm : noisy <;> rw [hmm] at hm <;> simp [warnIf] at hm
        exact ⟨Warning.trailingGarbage, hm⟩
  | cons m rest ih =>
    intro n ev hm
    rw [testGo.eq_def] at hm
    dsimp only at hm
    rcases hb : m.body with d | p | p <;> rw [hb] at hm <;> dsimp only at hm
    · by_cases hend : (rest.isEmpty && garbage.isEmpty) = true
      · simp [hend] at hm
      · rw [if_neg hend] at hm
        exact ih _ ev hm
    · simp at hm
      exact ⟨Warning.crcMsg, hm⟩
    · simp at hm
      exact ⟨Warning.eofMsg, hm⟩

theorem testGo_not_fatal (noisy : Bool) (garbage : List Nat) (ms : List Member) :
    ∀ n, ∃ b, (testGo noisy garbage ms n).outcome = UOutcome.ret b := by
  induction ms with
  | nil =>
    intro n
    rw [testGo.eq_def]
    dsimp only
    by_cases hg : garbage.isEmpty = true
    · exact ⟨false, by simp [hg]⟩
    · by_cases hn : n = 1
      · exact ⟨false, by simp [hg, hn]⟩
      · exact ⟨true, by simp [hg, hn]⟩
  | cons m rest ih =>
    intro n
    rw [testGo.eq_def]
    dsimp only
    rcases hb : m.body with d | p | p <;> dsimp only
    · by_cases hend : (rest.isEmpty && garbage.isEmpty) = true
      · exact ⟨true, by simp [hend]⟩
      · rw [if_neg hend]
        exact ih _
    · exact ⟨false, rfl⟩
    · exact ⟨false, rfl⟩

theorem testGo_bad_member (noisy : Bool) (garbage : List Nat) (pre : List Member)
    (hok : allOkMembers pre = true) (bad : Member) (rest : List Member) (p : List Nat)
    (hbad : bad.body = MemberBody.crcErr p ∨ bad.body = MemberBody.truncated p) :
    ∀ n, (testGo noisy garbage (pre ++ bad :: rest) n).outcome = UOutcome.ret false := by
  induction pre with
  | nil =>
    intro n
    rw [testGo.eq_def]
    simp only [List.nil_append]
    rcases hbad with hb | hb <;> rw [hb]
  | cons m pre2 ih =>
    intro n
    have hm : (match m.body with | MemberBody.ok _ => true | _ => false) = true ∧
        allOkMembers pre2 = true := by
      simpa [allOkMembers, List.all_cons] using hok
    rw [testGo.eq_def]
    simp only [List.cons_append]
    rcases hb : m.body with d | q | q
    · have hne : (pre2 ++ bad :: rest).isEmpty = false := by
        cases pre2 <;> rfl
      rw [if_neg (by simp [hne])]
      exact ih hm.2 _
    all_goals simp [hb] at hm

theorem testAll_runs_all (noisy : Bool) (files : List BzFile) :
    ∃ rs, testAll noisy files = some rs ∧ rs.length = files.length := by
  induction files with
  | nil => exact ⟨[], rfl, rfl⟩
  | cons f rest ih =>
    obtain ⟨b, hb⟩ := testGo_not_fatal noisy f.garbage f.members 1
    obtain ⟨rs, hrs, hlen⟩ := ih
    refine ⟨b :: rs, ?_, by simp [hlen]⟩
    rw [testAll.eq_def]
    dsimp only
    rw [show (testStream noisy f).outcome = UOutcome.ret b from hb, hrs]
    rfl

/-- C5.  In test mode, for every flag combination (`testStream` consults no
overwrite flag at all), the raw-copy fallback is never performed; a member
reporting a data/CRC error or an unexpected end of stream makes
`testStream` return `false` for that job instead of terminating the
process, so the test driver walks every file argument and yields one result
per argument. -/
theorem test_failures_nonfatal :
    (∀ (noisy : Bool) (f : BzFile), Ev.rawCopy ∉ (testStream noisy f).evs) ∧
    (∀ (noisy : Bool) (pre rest : List Member) (bad : Member) (g p : List Nat),
      allOkMembers pre = true →
      (bad.body = MemberBody.crcErr p ∨ bad.body = MemberBody.truncated p) →
      (testStream noisy { members := pre ++ bad :: rest, garbage := g }).outcome
        = UOutcome.ret false) ∧
    (∀ (noisy : Bool) (files : List BzFile),
      ∃ rs, testAll noisy files = some rs ∧ rs.length = files.length) := by
  refine ⟨?_, ?_, testAll_runs_all⟩
  · intro noisy f hmem
    obtain ⟨w, hw⟩ := testGo_evs_warn noisy f.garbage f.members 1 Ev.rawCopy hmem
    exact Ev.noConfusion hw
  · intro noisy pre rest bad g p hok hbad
    exact testGo_bad_member noisy g pre hok bad rest p hbad 1

/-- Witness for `test_failures_nonfatal`: a single-member file with a CRC
error tests as a failure, and the driver still processes a following file. -/
theorem test_failures_nonfatal_witness :
    (testStream true ⟨[⟨[1], MemberBody.crcErr []⟩], []⟩).outcome = UOutcome.ret false ∧
    (∃ rs, testAll true [⟨[⟨[1], MemberBody.crcErr []⟩], []⟩, ⟨[], []⟩] = some rs
      ∧ rs.length = 2) :=
  ⟨test_failures_nonfatal.2.1 true [] [] ⟨[1], MemberBody.crcErr []⟩ [] [] rfl (Or.inl rfl),
   test_failures_nonfatal.2.2 true [⟨[⟨[1], MemberBody.crcErr []⟩], []⟩, ⟨[], []⟩]⟩

/-! ### C6 -/

/-- C6.  The output name of a file-to-file decompress job is derived by
scanning the ordered suffix pairs `.bz2`→ε, `.bz`→ε, `.tbz2`→`.tar`,
`.tbz`→`.tar` and replacing the first matching suffix (the embedded scan
agrees with the spec's rule on every name); when no suffix matches —
stated here for a nonempty plain file name — `.out` is appended, the
`cannot_guess` condition trips, and the job emits the "can't guess original
name" warning (noisy mode) while still concluding successfully with no
exit-code contribution: a warning, not an error. -/
theorem unzip_output_name_rule (name : List Char)
    (hnone : ∀ s ∈ Z_SUFFIX, s.isSuffixOf name = false) (hne : name ≠ []) :
    uncompressOutputName name = name ++ OUT_SUFFIX ∧
    (∀ nm, uncompressOutputName nm = suffixRuleSpec nm) ∧
    cannotGuessFlag SourceMode.F2F (c6Env name) = true ∧
    Ev.warn Warning.cantGuess ∈ (uncompressEvents SourceMode.F2F (c6Env name)).1 ∧
    (∀ n, Ev.setExit n ∉ (uncompressEvents SourceMode.F2F (c6Env name)).1) ∧
    (uncompressEvents SourceMode.F2F (c6Env name)).2 = true := by
  have h1 := hnone ['.', 'b', 'z', '2'] (by simp [Z_SUFFIX])
  have h2 := hnone ['.', 'b', 'z'] (by simp [Z_SUFFIX])
  have h3 := hnone ['.', 't', 'b', 'z', '2'] (by simp [Z_SUFFIX])
  have h4 := hnone ['.', 't', 'b', 'z'] (by simp [Z_SUFFIX])
  have hzip : Z_SUFFIX.zip UNZ_SUFFIX
      = [(['.', 'b', 'z', '2'], []), (['.', 'b', 'z'], []),
         (['.', 't', 'b', 'z', '2'], ['.', 't', 'a', 'r']),
         (['.', 't', 'b', 'z'], ['.', 't', 'a', 'r'])] := rfl
  have hout : uncompressOutputName name = name ++ OUT_SUFFIX := by
    unfold uncompressOutputName
    rw [hzip]
    simp [scanSuffixes, h1, h2, h3, h4]
  have hcg : cannotGuessFlag SourceMode.F2F (c6Env name) = true := by
    have hlen : 0 < name.length := List.length_pos.mpr hne
    unfold cannotGuessFlag c6Env
    dsimp only
    rw [hout]
    simp [extensionIsOut, List.isSuffixOf, OUT_SUFFIX]
    omega
  have hspec : ∀ nm, uncompressOutputName nm = suffixRuleSpec nm := by
    intro nm
    unfold uncompressOutputName suffixRuleSpec
    rw [hzip]
    simp only [scanSuffixes, List.length_cons, List.length_nil]
    norm_num
    split_ifs <;> simp [OUT_SUFFIX]
  have htr := uncompressEvents_pre_pass (c6Env name) rfl
  have hstream : uncompressStream false true true
        { members := [{ raw := [66], body := MemberBody.ok [104] }], garbage := [] }
      = { evs := [Ev.restorePerms], written := [104], outcome := UOutcome.ret true } := by
    decide
  refine ⟨hout, hspec, hcg, ?_, ?_, ?_⟩
  · rw [htr]
    unfold uncompressMain
    rw [hcg]
    simp [warnIf, c6Env]
  · intro n
    rw [htr]
    unfold uncompressMain
    rw [hcg]
    simp [warnIf, hstream, uncompressTail, retVal, rmOldEvs, c6Env]
  · rw [htr]
    unfold uncompressMain
    simp [hstream, retVal, c6Env]

/-- Witness for `unzip_output_name_rule` at the name `a`. -/
theorem unzip_output_name_rule_witness :
    uncompressOutputName ['a'] = ['a'] ++ OUT_SUFFIX ∧
    Ev.warn Warning.cantGuess ∈ (uncompressEvents SourceMode.F2F (c6Env ['a'])).1 ∧
    (uncompressEvents SourceMode.F2F (c6Env ['a'])).2 = true :=
  ⟨(unzip_output_name_rule ['a'] (by decide) (by decide)).1,
   (unzip_output_name_rule ['a'] (by decide) (by decide)).2.2.2.1,
   (unzip_output_name_rule ['a'] (by decide) (by decide)).2.2.2.2.2⟩

/-! ### C7 -/

/-- C7.  `copy_filename` on a name longer than 1024 usable bytes prints the
"suspiciously long" diagnostic and exits the process at once — with exit
code 1 when no worse code was accumulated, and in general with the worst
code raised to at least 1 (`setExit(1); exit(exitValue)`); this is fatal,
not a per-job error.  Names of length at most 1024 are accepted and stored
in the buffer. -/
theorem long_filename_fatal (dst from_ : List Nat) :
    (1024 < from_.length → copy_filename 0 dst from_ = Except.error 1) ∧
    (from_.length ≤ 1024 → copy_filename 0 dst from_
        = Except.ok (copyFilenameBuf dst from_)) ∧
    (∀ priorExit : Nat, 1024 < from_.length →
      copy_filename priorExit dst from_ = Except.error (max priorExit 1)) := by
  refine ⟨?_, ?_, ?_⟩
  · intro h
    unfold copy_filename
    rw [if_pos (by simp only [FILE_NAME_LEN]; omega)]
    norm_num
  · intro h
    unfold copy_filename
    rw [if_neg (by simp only [FILE_NAME_LEN]; omega)]
  · intro priorExit h
    unfold copy_filename
    rw [if_pos (by simp only [FILE_NAME_LEN]; omega)]

/-- Witness for `long_filename_fatal`: a 1025-byte name is fatal with exit
code 1, a short name is stored. -/
theorem long_filename_fatal_witness :
    copy_filename 0 (List.replicate 1034 0) (List.replicate 1025 7) = Except.error 1 ∧
    copy_filename 0 (List.replicate 1034 0) [7]
      = Except.ok (copyFilenameBuf (List.replicate 1034 0) [7]) :=
  ⟨(long_filename_fatal (List.replicate 1034 0) (List.replicate 1025 7)).1
      (by rw [List.length_replicate]; omega),
   (long_filename_fatal (List.replicate 1034 0) [7]).2.1 (by norm_num)⟩

/-! ### C8 -/

theorem feedChunks_eq (fuel : Nat) :
    ∀ (l : List Nat) (acc : Nat), l.length ≤ fuel → feedChunks fuel l acc = acc + l.length := by
  induction fuel with
  | zero =>
    intro l acc h
    have hl : l = [] := List.eq_nil_of_length_eq_zero (Nat.le_zero.mp h)
    subst hl
    rfl
  | succ fuel ih =>
    intro l acc h
    cases l with
    | nil => rfl
    | cons a t =>
      simp only [feedChunks]
      rw [ih _ _ (by simp only [List.length_drop, List.length_cons] at h ⊢; omega)]
      simp only [List.length_take, List.length_drop, List.length_cons]
      omega

theorem feed_eq (l : List Nat) : feed l = l.length := by
  unfold feed
  rw [feedChunks_eq l.length l 0 le_rfl]
  omega

/-- A file-to-file `compress` job whose preconditions all pass proceeds to
the main section. -/
theorem compressEvents_pre_pass (e : CompressEnv) (hpre : compressPre e = true) :
    compressEvents SourceMode.F2F e
      = compressMain SourceMode.F2F e (cRmOldEvs SourceMode.F2F e) [Ev.openOutput] := by
  obtain ⟨db, ie, zs, dir, ns, oe, hl, st, oi, oo, fo, kp, no, v, inp, cs, cf⟩ := e
  simp only [compressPre, Bool.and_eq_true, Bool.not_eq_true', decide_eq_true_eq] at hpre
  obtain ⟨⟨⟨⟨⟨⟨⟨⟨⟨hdb, hie⟩, hzs⟩, hdir⟩, hns⟩, hoe⟩, hhl⟩, hst⟩, hoi⟩, hoo⟩ := hpre
  subst hdb hie hzs hdir hns hoe hhl hst hoi hoo
  simp [compressEvents]

/-- C8.  A compress job over an empty (0-byte) input succeeds and, when
reporting is enabled (verbosity at least 1), reports " no data compressed."
instead of the ratio line; a nonempty input reports the ratio line carrying
the absolute input/output byte counts.  A precondition-passing job whose
codec session does not fail contributes no exit code (exit code 0) and
concludes normally. -/
theorem empty_input_no_data_report (input : List Nat) (outBytes v : Nat) (hv : 1 ≤ v) :
    (input = [] → compressStream v input outBytes none = CompressResult.success Report.noData) ∧
    (input ≠ [] → compressStream v input outBytes none
        = CompressResult.success (Report.stats input.length outBytes)) ∧
    (∀ e : CompressEnv, compressPre e = true → e.codecFail = none →
      (∀ n, Ev.setExit n ∉ compressEvents SourceMode.F2F e) ∧
      Ev.conclude ∈ compressEvents SourceMode.F2F e) := by
  refine ⟨?_, ?_, ?_⟩
  · intro h
    subst h
    simp [compressStream, feed, feedChunks, hv]
  · intro h
    unfold compressStream
    rw [feed_eq]
    rw [if_pos hv, if_neg fun hc => h (List.eq_nil_of_length_eq_zero hc)]
  · intro e hpre hcf
    have htr := compressEvents_pre_pass e hpre
    have hrm : cRmOldEvs SourceMode.F2F e = [] := by
      have hoe : e.outputExists = false := by
        simp only [compressPre, Bool.and_eq_true, Bool.not_eq_true', decide_eq_true_eq] at hpre
        exact hpre.1.1.1.1.2
      simp [cRmOldEvs, hoe]
    rw [htr]
    unfold compressMain
    rw [hrm, hcf]
    constructor
    · intro n
      cases hkp : e.keep <;> simp [compressStream, compressTail, hkp]
    · cases hkp : e.keep <;> simp [compressStream, compressTail, hkp]

/-- Witness for `empty_input_no_data_report`: empty input at verbosity 1,
one-byte input at verbosity 1, and a default file-to-file job. -/
theorem empty_input_no_data_report_witness :
    compressStream 1 ([] : List Nat) 5 none = CompressResult.success Report.noData ∧
    compressStream 1 [9] 5 none = CompressResult.success (Report.stats 1 5) ∧
    Ev.conclude ∈ compressEvents SourceMode.F2F {} :=
  ⟨(empty_input_no_data_report [] 5 1 (by decide)).1 rfl,
   (empty_input_no_data_report [9] 5 1 (by decide)).2.1 (by decide),
   ((empty_input_no_data_report [] 5 1 (by decide)).2.2 {} rfl rfl).2⟩

/-! ### C9 -/

/-- C9 (refutation: the code has an off-by-one bug).  `copy_filename`
NUL-terminates at index `from.len() + 1` instead of `from.len()`, so the
byte at index `from.len()` keeps whatever the buffer held before.  Copying
the two-byte name `ab` into the startup buffer holding `(none)` leaves the
stale byte `o` (111) at index 2 and puts the NUL at index 3, so a later
C-string read recovers `abo`, not `ab`. -/
theorem copy_filename_stale_byte :
    copy_filename 0 noneBuf [97, 98] = Except.ok (copyFilenameBuf noneBuf [97, 98]) ∧
    (copyFilenameBuf noneBuf [97, 98]).get? 2 = some 111 ∧
    (copyFilenameBuf noneBuf [97, 98]).get? 3 = some 0 ∧
    cstr (copyFilenameBuf noneBuf [97, 98]) = [97, 98, 111] ∧
    cstr (copyFilenameBuf noneBuf [97, 98]) ≠ [97, 98] := by
  refine ⟨rfl, ?_, ?_, ?_, ?_⟩ <;> decide

/-! ### C10 -/

theorem setFlagTrue_not_mem_warnIf (b : Bool) (w : Warning) :
    Ev.setFlag true ∉ warnIf b w := by
  cases b <;> simp [warnIf]

/-- C10.  A test-mode job stores `false` into the deletable flag as its
very first action and never stores `true`; and `cleanUpAndFail` only
deletes an output file when the operation mode is not Test, so no interrupt
or fatal-error cleanup during a test run ever deletes a file. -/
theorem test_mode_never_deletes :
    (∀ (srcMode : SourceMode) (e : TestEnv),
      (testfEvents srcMode e).1.head? = some (Ev.setFlag false) ∧
      Ev.setFlag true ∉ (testfEvents srcMode e).1) ∧
    (∀ (g : CleanupEnv) (ec : Nat),
      Ev.removeOutput ∉ (cleanUpAndFail OperationMode.Test g ec).1) := by
  constructor
  · intro srcMode e
    unfold testfEvents
    split_ifs with h1 h2 h3 h4
    · exact ⟨rfl, by
        intro hm
        simp at hm
        exact setFlagTrue_not_mem_warnIf _ _ hm⟩
    · exact ⟨rfl, by decide⟩
    · exact ⟨rfl, by decide⟩
    · exact ⟨rfl, by decide⟩
    · refine ⟨rfl, ?_⟩
      intro hm
      simp at hm
      obtain ⟨w, hw⟩ := testGo_evs_warn e.noisy e.file.garbage e.file.members 1 _ hm
      exact Ev.noConfusion hw
  · intro g ec
    unfold cleanUpAndFail
    rw [if_neg (by simp)]
    split_ifs <;> simp

end Bzip2
